import Mathlib

/-!
# Verification of the 2D grid-editor core (MinecraftEditor)

Shallow embedding of `src/src/components/MinecraftEditor.tsx`:
the grid model, the paint engine (`paintCell`), the flood-fill algorithm
(`floodFill`), the canvas click entry point (`handleCanvasClick`), the
screen-to-grid coordinate transform (`getCanvasCoordinates`) and the zoom
updates (wheel and buttons).

Modelling conventions:
* A JS cell value is `Option String`: `some id` is a cell object
  `{ blockId: id }`, `none` is a hole / `undefined` (reading `.blockId`
  of `undefined` throws, modelled as `Except.error ()`).
* A grid is a row-major `List (List (Option String))`; the application
  invariant `WFGrid` says 48 rows of 64 genuine cells.
* Coordinates coming from the pointer pipeline are `Int` (result of
  `Math.floor`); the real-valued screen arithmetic is over `ℚ`.
* The stack loop of the source is modelled with explicit fuel; the canonical
  fuel `floodFillFuel` is proved sufficient for well-formed grids.
-/

namespace MCEditor

/-- `CANVAS_WIDTH = 64` from the source. -/
def CANVAS_WIDTH : Nat := 64

/-- `CANVAS_HEIGHT = 48` from the source. -/
def CANVAS_HEIGHT : Nat := 48

/-- `CELL_SIZE = 16` from the source (used in real-valued screen arithmetic). -/
def CELL_SIZE : ℚ := 16

/-- The tool union type of brush, eraser and fill. -/
inductive Tool where
  | brush
  | eraser
  | fill
deriving DecidableEq

/-- A JS cell slot: `some id` is a cell object `{ blockId: id }`, `none` is
`undefined` (a hole created by an out-of-range array assignment). -/
abbrev CellSlot := Option String

/-- The grid state: a row-major array of rows of cell slots. -/
abbrev Grid := List (List CellSlot)

/-- The initial grid: `CANVAS_HEIGHT` rows of `CANVAS_WIDTH` cells holding air. -/
def initialGrid : Grid :=
  List.replicate CANVAS_HEIGHT (List.replicate CANVAS_WIDTH (some "air"))

/-- Reading `grid[y][x]` as a JS value: a negative index or an index past the
end of the array reads `undefined` (`none`). -/
def getCell (g : Grid) (x y : Int) : CellSlot :=
  if 0 ≤ x ∧ 0 ≤ y then (g.getD y.toNat []).getD x.toNat none else none

/-- Writing `grid[y][x] = v` at indices already checked to be in canvas
bounds (as the flood-fill loop does). -/
def setCell (g : Grid) (x y : Int) (v : CellSlot) : Grid :=
  g.set y.toNat ((g.getD y.toNat []).set x.toNat v)

/-- The grid-state invariant maintained by the application: exactly
`CANVAS_HEIGHT` rows, each of `CANVAS_WIDTH` slots, and no holes. -/
def WFGrid (g : Grid) : Prop :=
  g.length = CANVAS_HEIGHT ∧
    (∀ row ∈ g, row.length = CANVAS_WIDTH) ∧
    ∀ row ∈ g, ∀ c ∈ row, c.isSome = true

instance : DecidablePred WFGrid := fun g => by
  unfold WFGrid; infer_instance

/-- In-bounds predicate for canvas coordinates, as checked by the source
(`x < 0 || x >= CANVAS_WIDTH || y < 0 || y >= CANVAS_HEIGHT` negated). -/
def InB (x y : Int) : Prop :=
  0 ≤ x ∧ x < (CANVAS_WIDTH : Int) ∧ 0 ≤ y ∧ y < (CANVAS_HEIGHT : Int)

instance (x y : Int) : Decidable (InB x y) := by
  unfold InB; infer_instance

/-! ## Basic list-access lemmas -/

theorem getD_set_self {α : Type} (l : List α) (i : Nat) (v d : α)
    (h : i < l.length) : (l.set i v).getD i d = v := by
  induction l generalizing i with
  | nil => simp at h
  | cons a l ih =>
    cases i with
    | zero => simp
    | succ j => simpa using ih j (by simpa using h)

theorem getD_set_ne {α : Type} (l : List α) (i j : Nat) (v d : α)
    (h : i ≠ j) : (l.set i v).getD j d = l.getD j d := by
  induction l generalizing i j with
  | nil => simp
  | cons a l ih =>
    cases i with
    | zero =>
      cases j with
      | zero => exact absurd rfl h
      | succ j' => simp
    | succ i' =>
      cases j with
      | zero => simp
      | succ j' => simpa using ih i' j' (by omega)

theorem getD_set_or {α : Type} (l : List α) (i j : Nat) (v d : α) :
    (l.set i v).getD j d = l.getD j d ∨ (l.set i v).getD j d = v := by
  by_cases hij : i = j
  · subst hij
    by_cases hlen : i < l.length
    · exact Or.inr (getD_set_self l i v d hlen)
    · left
      rw [List.set_eq_of_length_le (by omega)]
  · exact Or.inl (getD_set_ne l i j v d hij)

theorem mem_of_mem_set {α : Type} {l : List α} {i : Nat} {v a : α}
    (h : a ∈ l.set i v) : a ∈ l ∨ a = v := by
  rcases List.mem_or_eq_of_mem_set h with h' | h'
  · exact Or.inl h'
  · exact Or.inr h'

theorem getD_mem {α : Type} {l : List α} {i : Nat} (h : i < l.length) (d : α) :
    l.getD i d ∈ l := by
  rw [List.getD_eq_getElem?_getD, List.getElem?_eq_getElem h]
  exact List.getElem_mem h

/-! ## Cell-level access lemmas -/

theorem hW : (CANVAS_WIDTH : Int) = 64 := rfl

theorem hH : (CANVAS_HEIGHT : Int) = 48 := rfl

theorem toNat_inj_of_InB {x y x' y' : Int} (hx : InB x y) (hy : InB x' y')
    (h : (x, y) ≠ (x', y')) : x.toNat ≠ x'.toNat ∨ y.toNat ≠ y'.toNat := by
  obtain ⟨hx0, _, hy0, _⟩ := hx
  obtain ⟨hx0', _, hy0', _⟩ := hy
  by_contra hcon
  push_neg at hcon
  obtain ⟨h1, h2⟩ := hcon
  exact h (by
    have ex : x = x' := by omega
    have ey : y = y' := by omega
    rw [ex, ey])

theorem row_length {g : Grid} (hwf : WFGrid g) {i : Nat} (h : i < g.length) :
    (g.getD i []).length = CANVAS_WIDTH :=
  hwf.2.1 _ (getD_mem h [])

theorem getCell_setCell_self {g : Grid} {x y : Int} (hwf : WFGrid g)
    (hin : InB x y) (v : CellSlot) : getCell (setCell g x y v) x y = v := by
  obtain ⟨hx0, hxw, hy0, hyh⟩ := hin
  rw [hW] at hxw
  rw [hH] at hyh
  have hyl : y.toNat < g.length := by rw [hwf.1]; unfold CANVAS_HEIGHT; omega
  have hxl : x.toNat < (g.getD y.toNat []).length := by
    rw [row_length hwf hyl]; unfold CANVAS_WIDTH; omega
  unfold getCell setCell
  rw [if_pos ⟨hx0, hy0⟩, getD_set_self g _ _ _ hyl, getD_set_self _ _ _ _ hxl]

theorem getCell_setCell_ne {g : Grid} {x y a b : Int} (hin : InB x y)
    (hab : InB a b) (hne : (a, b) ≠ (x, y)) (v : CellSlot) :
    getCell (setCell g x y v) a b = getCell g a b := by
  have hpos : 0 ≤ a ∧ 0 ≤ b := ⟨hab.1, hab.2.2.1⟩
  unfold getCell setCell
  rw [if_pos hpos, if_pos hpos]
  by_cases hyl : y.toNat < g.length
  · by_cases hby : b.toNat = y.toNat
    · have hax : a.toNat ≠ x.toNat := by
        rcases toNat_inj_of_InB hab hin hne with h | h
        · exact h
        · exact absurd hby h
      rw [hby, getD_set_self g y.toNat _ [] hyl,
        getD_set_ne _ _ _ _ _ (fun hc => hax hc.symm)]
    · rw [getD_set_ne g _ _ _ _ (fun hc => hby hc.symm)]
  · rw [List.set_eq_of_length_le (by omega)]

theorem getCell_setCell_or (g : Grid) (x y a b : Int) (v : CellSlot) :
    getCell (setCell g x y v) a b = getCell g a b ∨
      getCell (setCell g x y v) a b = v := by
  unfold getCell setCell
  by_cases hpos : 0 ≤ a ∧ 0 ≤ b
  · rw [if_pos hpos, if_pos hpos]
    by_cases hby : b.toNat = y.toNat
    · rw [hby]
      by_cases hyl : y.toNat < g.length
      · rw [getD_set_self g _ _ _ hyl]
        exact getD_set_or _ _ _ _ _
      · rw [List.set_eq_of_length_le (by omega)]
        exact Or.inl rfl
    · rw [getD_set_ne g _ _ _ _ (fun hc => hby hc.symm)]
      exact Or.inl rfl
  · rw [if_neg hpos, if_neg hpos]
    exact Or.inl rfl

theorem WFGrid_setCell {g : Grid} {x y : Int} (hwf : WFGrid g)
    (hin : InB x y) (s : String) : WFGrid (setCell g x y (some s)) := by
  obtain ⟨hlen, hrow, hcell⟩ := hwf
  have hyl : y.toNat < g.length := by
    obtain ⟨_, _, hy0, hyh⟩ := hin
    rw [hH] at hyh
    rw [hlen]; unfold CANVAS_HEIGHT; omega
  refine ⟨by simp only [setCell, List.length_set]; exact hlen, ?_, ?_⟩
  · intro row hmem
    rcases mem_of_mem_set hmem with h | h
    · exact hrow row h
    · subst h
      rw [List.length_set]
      exact hrow _ (getD_mem hyl [])
  · intro row hmem c hc
    rcases mem_of_mem_set hmem with h | h
    · exact hcell row h c hc
    · subst h
      rcases mem_of_mem_set hc with h' | h'
      · exact hcell _ (getD_mem hyl []) c h'
      · subst h'; rfl

theorem getCell_isSome {g : Grid} {x y : Int} (hwf : WFGrid g)
    (hin : InB x y) : ∃ s, getCell g x y = some s := by
  obtain ⟨hx0, hxw, hy0, hyh⟩ := hin
  rw [hW] at hxw
  rw [hH] at hyh
  have hyl : y.toNat < g.length := by rw [hwf.1]; unfold CANVAS_HEIGHT; omega
  have hxl : x.toNat < (g.getD y.toNat []).length := by
    rw [row_length hwf hyl]; unfold CANVAS_WIDTH; omega
  have hcmem : (g.getD y.toNat []).getD x.toNat none ∈ g.getD y.toNat [] :=
    getD_mem hxl none
  have := hwf.2.2 _ (getD_mem hyl []) _ hcmem
  unfold getCell
  rw [if_pos ⟨hx0, hy0⟩]
  exact Option.isSome_iff_exists.mp this

/-! ## The paint engine (`paintCell`, source lines 174-184) -/

/-- The JS assignment `row[x] = some v` on an array `row`:
* a negative index creates an object property invisible to element reads,
  leaving the array elements unchanged;
* an index inside the array replaces that element;
* an index past the end extends the array, creating holes (`none`) for the
  skipped positions. -/
def jsIndexAssign (row : List CellSlot) (x : Int) (v : String) : List CellSlot :=
  if x < 0 then row
  else if x.toNat < row.length then row.set x.toNat (some v)
  else row ++ List.replicate (x.toNat - row.length) none ++ [some v]

/-- `paintCell(x, y)` from the source: copies the grid, then runs
`newGrid[y][x] = { blockId: ... }` for the brush (selected block) or the
eraser (air); any other tool leaves the copy untouched.  When `y` is not a
valid row index, `newGrid[y]` is `undefined` and the assignment throws a
TypeError, modelled as `Except.error ()`. -/
def paintCell (tool : Tool) (selectedBlockId : String) (g : Grid)
    (x y : Int) : Except Unit Grid :=
  match tool with
  | Tool.brush =>
    if 0 ≤ y ∧ y.toNat < g.length then
      Except.ok (g.set y.toNat (jsIndexAssign (g.getD y.toNat []) x selectedBlockId))
    else Except.error ()
  | Tool.eraser =>
    if 0 ≤ y ∧ y.toNat < g.length then
      Except.ok (g.set y.toNat (jsIndexAssign (g.getD y.toNat []) x "air"))
    else Except.error ()
  | Tool.fill => Except.ok g

/-! ## The flood-fill algorithm (source lines 186-207) -/

/-- The explicit work-stack loop of `floodFill`.  The head of the list is the
top of the stack (`stack.pop()` pops the most recently pushed entry), so the
four pushes `[x+1,y], [x-1,y], [x,y+1], [x,y-1]` appear reversed.  Reading
`.blockId` of a hole throws (`Except.error ()`); `fuel` is a bound on the
number of iterations, proved sufficient below for well-formed grids. -/
def floodFillLoop (target repl : String) :
    Nat → Grid → List (Int × Int) → Except Unit Grid
  | 0, _, _ => Except.error ()
  | _ + 1, g, [] => Except.ok g
  | fuel + 1, g, (x, y) :: rest =>
    if x < 0 ∨ (CANVAS_WIDTH : Int) ≤ x ∨ y < 0 ∨ (CANVAS_HEIGHT : Int) ≤ y then
      floodFillLoop target repl fuel g rest
    else
      match getCell g x y with
      | none => Except.error ()
      | some c =>
        if c ≠ target then floodFillLoop target repl fuel g rest
        else
          floodFillLoop target repl fuel (setCell g x y (some repl))
            ((x, y - 1) :: (x, y + 1) :: (x - 1, y) :: (x + 1, y) :: rest)

/-- Canonical fuel: one more than the largest possible loop measure
`4 * (matching cells) + (stack length)` of a well-formed grid. -/
def floodFillFuel : Nat := 4 * (CANVAS_WIDTH * CANVAS_HEIGHT) + 2

/-- `floodFill(startX, startY)` with explicit fuel: read the target identifier
at the start cell (throws on a missing row or hole), return the grid
unchanged when the target equals the replacement, otherwise run the stack
loop from `[(startX, startY)]`. -/
def floodFillWith (fuel : Nat) (g : Grid) (startX startY : Int)
    (repl : String) : Except Unit Grid :=
  match getCell g startX startY with
  | none => Except.error ()
  | some target =>
    if target = repl then Except.ok g
    else floodFillLoop target repl fuel g [(startX, startY)]

/-- `floodFill` at the canonical fuel. -/
def floodFill (g : Grid) (startX startY : Int) (repl : String) :
    Except Unit Grid :=
  floodFillWith floodFillFuel g startX startY repl

/-! ## The canvas click entry point (source lines 148-172) -/

/-- `handleCanvasClick` after coordinate computation: out-of-range
coordinates are dropped before any mutation; the fill tool dispatches to
`floodFill` (whose replacement identifier resolves to the selected block,
since the tool is not the eraser there), other tools to `paintCell`. -/
def handleCanvasClick (tool : Tool) (selectedBlockId : String) (g : Grid)
    (x y : Int) : Except Unit Grid :=
  if x < 0 ∨ (CANVAS_WIDTH : Int) ≤ x ∨ y < 0 ∨ (CANVAS_HEIGHT : Int) ≤ y then
    Except.ok g
  else
    match tool with
    | Tool.fill => floodFill g x y selectedBlockId
    | _ => paintCell tool selectedBlockId g x y

/-! ## Viewport: zoom updates (source lines 251-255 and 333-347) -/

/-- A single zoom-changing input: the mouse wheel (`handleWheel`, delta
`±0.1`, both sides clamped) or the sidebar buttons (`±0.25`, each clamped on
the side it can violate). -/
inductive ZoomEvent where
  | wheelIn
  | wheelOut
  | buttonIn
  | buttonOut

/-- The zoom update for one event, exactly as in the source:
`handleWheel` computes `max(0.25, min(5, zoom + delta))` with
`delta = ±0.1`; the zoom-out button computes `max(0.25, zoom - 0.25)` and
the zoom-in button `min(5, zoom + 0.25)`. -/
def zoomStep : ZoomEvent → ℚ → ℚ
  | ZoomEvent.wheelIn, z => max 0.25 (min 5 (z + 0.1))
  | ZoomEvent.wheelOut, z => max 0.25 (min 5 (z + (-0.1)))
  | ZoomEvent.buttonIn, z => min 5 (z + 0.25)
  | ZoomEvent.buttonOut, z => max 0.25 (z - 0.25)

/-- A finite sequence of zoom events applied in order. -/
def zoomRun (events : List ZoomEvent) (z : ℚ) : ℚ :=
  events.foldl (fun acc e => zoomStep e acc) z

/-! ## The coordinate transformer (source lines 138-146) -/

/-- `getCanvasCoordinates(clientX, clientY)`: subtract the canvas origin and
the pan offset, divide by the zoomed cell size, and floor. -/
def getCanvasCoordinates (clientX clientY rectLeft rectTop panX panY zoom : ℚ) :
    Int × Int :=
  (⌊(clientX - rectLeft - panX) / (CELL_SIZE * zoom)⌋,
    ⌊(clientY - rectTop - panY) / (CELL_SIZE * zoom)⌋)

/-! ## Claim C1: out-of-range paint is NOT silently ignored by the model -/

/-- Claim C1, counterexample: calling the grid-model mutation `paintCell`
directly (bypassing the bounds-checking caller) with the out-of-range row 48
does not return the grid unchanged with no error: it signals an error (the
JS assignment to an undefined row throws a TypeError). -/
theorem paintCell_out_of_range_errors :
    paintCell Tool.brush "stone" initialGrid 0 48 = Except.error () := by
  rfl

/-- Claim C1, amended: out-of-range coordinates are silently ignored by the
bounds-checking caller `handleCanvasClick`, which returns the grid unchanged
and signals no error for every tool and block identifier; the grid-model
mutation itself does not defend against direct out-of-range calls. -/
theorem handleCanvasClick_out_of_range (g : Grid) (tool : Tool)
    (sel : String) (x y : Int)
    (h : x < 0 ∨ (CANVAS_WIDTH : Int) ≤ x ∨ y < 0 ∨ (CANVAS_HEIGHT : Int) ≤ y) :
    handleCanvasClick tool sel g x y = Except.ok g := by
  unfold handleCanvasClick
  rw [if_pos h]

/-- Witness for the amended claim C1 at a concrete out-of-range input. -/
theorem handleCanvasClick_out_of_range_witness :
    handleCanvasClick Tool.brush "stone" initialGrid 64 0 =
      Except.ok initialGrid :=
  handleCanvasClick_out_of_range initialGrid Tool.brush "stone" 64 0
    (by decide)

/-! ## Claim C2: coordinate-transform round trip -/

/-- Claim C2: for every cell `(row, col)` of the grid, every zoom in
`[0.25, 5.0]` and every pan offset (and canvas origin), the screen-to-grid
transform maps the screen point of the cell center
`((col*16+8)*zoom + panX, (row*16+8)*zoom + panY)` back to exactly
`(col, row)`. -/
theorem getCanvasCoordinates_round_trip (row col : Int)
    (zoom panX panY rectLeft rectTop : ℚ)
    (hc0 : 0 ≤ col) (hcw : col < 64) (hr0 : 0 ≤ row) (hrh : row < 48)
    (hz1 : 1/4 ≤ zoom) (hz2 : zoom ≤ 5) :
    getCanvasCoordinates (((col : ℚ) * 16 + 8) * zoom + panX + rectLeft)
      (((row : ℚ) * 16 + 8) * zoom + panY + rectTop)
      rectLeft rectTop panX panY zoom = (col, row) := by
  have hz0 : (0 : ℚ) < zoom := lt_of_lt_of_le (by norm_num) hz1
  have hz : zoom ≠ 0 := ne_of_gt hz0
  have hhalf : ⌊(1 / 2 : ℚ)⌋ = 0 := by
    rw [Int.floor_eq_zero_iff]
    constructor <;> norm_num
  unfold getCanvasCoordinates CELL_SIZE
  have e1 : ((col : ℚ) * 16 + 8) * zoom + panX + rectLeft - rectLeft - panX =
      ((col : ℚ) * 16 + 8) * zoom := by ring
  have e2 : ((row : ℚ) * 16 + 8) * zoom + panY + rectTop - rectTop - panY =
      ((row : ℚ) * 16 + 8) * zoom := by ring
  rw [e1, e2]
  have d1 : ((col : ℚ) * 16 + 8) * zoom / (16 * zoom) = (col : ℚ) + 1 / 2 := by
    field_simp
    ring
  have d2 : ((row : ℚ) * 16 + 8) * zoom / (16 * zoom) = (row : ℚ) + 1 / 2 := by
    field_simp
    ring
  rw [d1, d2, Int.floor_int_add, Int.floor_int_add, hhalf, add_zero, add_zero]

/-- Witness for claim C2 at a concrete cell, zoom and pan. -/
theorem getCanvasCoordinates_round_trip_witness :
    getCanvasCoordinates ((((5 : Int) : ℚ) * 16 + 8) * (1 / 2) + 3 + 2)
      ((((7 : Int) : ℚ) * 16 + 8) * (1 / 2) + (-4) + 1)
      2 1 3 (-4) (1 / 2) = (5, 7) :=
  getCanvasCoordinates_round_trip 7 5 (1 / 2) 3 (-4) 2 1
    (by norm_num) (by norm_num) (by norm_num) (by norm_num)
    (by norm_num) (by norm_num)

/-! ## Claim C6: flood-fill early exit -/

/-- Claim C6: for every grid and every in-bounds start cell whose current
identifier already equals the replacement identifier, `floodFill` returns
the grid unchanged. -/
theorem floodFill_no_op (g : Grid) (sx sy : Int) (repl : String)
    (hin : InB sx sy) (hcur : getCell g sx sy = some repl) :
    floodFill g sx sy repl = Except.ok g := by
  unfold floodFill floodFillWith
  rw [hcur]
  simp

/-- Witness for claim C6: filling the all-air grid with air at (0,0). -/
theorem floodFill_no_op_witness :
    floodFill initialGrid 0 0 "air" = Except.ok initialGrid :=
  floodFill_no_op initialGrid 0 0 "air" (by decide) (by rfl)

/-! ## Claim C8: zoom clamp invariant -/

/-- Claim C8: starting from any zoom in `[0.25, 5.0]`, no finite sequence of
wheel steps (`±0.1`) and button steps (`±0.25`) drives the zoom below 0.25
or above 5.0. -/
theorem zoom_clamp (z : ℚ) (h1 : 0.25 ≤ z) (h2 : z ≤ 5)
    (events : List ZoomEvent) :
    0.25 ≤ zoomRun events z ∧ zoomRun events z ≤ 5 := by
  induction events generalizing z with
  | nil => exact ⟨h1, h2⟩
  | cons e es ih =>
    have hstep : 0.25 ≤ zoomStep e z ∧ zoomStep e z ≤ 5 := by
      cases e
      · exact ⟨le_max_left _ _, max_le (by norm_num) (min_le_left _ _)⟩
      · exact ⟨le_max_left _ _, max_le (by norm_num) (min_le_left _ _)⟩
      · exact ⟨le_min (by norm_num) (by linarith), min_le_left _ _⟩
      · exact ⟨le_max_left _ _, max_le (by norm_num) (by linarith)⟩
    exact ih (zoomStep e z) hstep.1 hstep.2

/-- Witness for claim C8 on a concrete zoom and event sequence. -/
theorem zoom_clamp_witness :
    0.25 ≤ zoomRun [ZoomEvent.wheelOut, ZoomEvent.buttonIn] 1 ∧
      zoomRun [ZoomEvent.wheelOut, ZoomEvent.buttonIn] 1 ≤ 5 :=
  zoom_clamp 1 (by norm_num) (by norm_num) _

/-! ## Claim C9: paint locality -/

/-- Claim C9: painting an in-bounds cell with the brush sets exactly that
cell to the selected identifier, the eraser sets exactly that cell to
`air`; reading the painted cell back returns the written identifier and
every other in-bounds cell is unchanged. -/
theorem paintCell_locality (g : Grid) (sel : String) (x y : Int)
    (hwf : WFGrid g) (hin : InB x y) :
    ∃ gb ge, paintCell Tool.brush sel g x y = Except.ok gb ∧
      paintCell Tool.eraser sel g x y = Except.ok ge ∧
      getCell gb x y = some sel ∧ getCell ge x y = some "air" ∧
      ∀ a b : Int, InB a b → (a, b) ≠ (x, y) →
        getCell gb a b = getCell g a b ∧ getCell ge a b = getCell g a b := by
  have hx0 : 0 ≤ x := hin.1
  have hxw : x < (CANVAS_WIDTH : Int) := hin.2.1
  have hy0 : 0 ≤ y := hin.2.2.1
  have hyh : y < (CANVAS_HEIGHT : Int) := hin.2.2.2
  rw [hW] at hxw
  rw [hH] at hyh
  have hyl : y.toNat < g.length := by rw [hwf.1]; unfold CANVAS_HEIGHT; omega
  have hxl : x.toNat < (g.getD y.toNat []).length := by
    rw [row_length hwf hyl]; unfold CANVAS_WIDTH; omega
  have hb : paintCell Tool.brush sel g x y =
      Except.ok (setCell g x y (some sel)) := by
    simp only [paintCell, jsIndexAssign, setCell]
    rw [if_pos ⟨hy0, hyl⟩, if_neg (by omega : ¬x < 0), if_pos hxl]
  have he : paintCell Tool.eraser sel g x y =
      Except.ok (setCell g x y (some "air")) := by
    simp only [paintCell, jsIndexAssign, setCell]
    rw [if_pos ⟨hy0, hyl⟩, if_neg (by omega : ¬x < 0), if_pos hxl]
  refine ⟨_, _, hb, he, getCell_setCell_self hwf hin _,
    getCell_setCell_self hwf hin _, ?_⟩
  intro a b hab hne
  exact ⟨getCell_setCell_ne hin hab hne _, getCell_setCell_ne hin hab hne _⟩

/-- Witness for claim C9 on the initial grid at (5, 5). -/
theorem paintCell_locality_witness :
    ∃ gb ge, paintCell Tool.brush "stone" initialGrid 5 5 = Except.ok gb ∧
      paintCell Tool.eraser "stone" initialGrid 5 5 = Except.ok ge ∧
      getCell gb 5 5 = some "stone" ∧ getCell ge 5 5 = some "air" ∧
      ∀ a b : Int, InB a b → (a, b) ≠ (5, 5) →
        getCell gb a b = getCell initialGrid a b ∧
          getCell ge a b = getCell initialGrid a b :=
  paintCell_locality initialGrid "stone" 5 5 (by decide) (by decide)

/-! ## Unfolding lemmas for the flood-fill loop -/

theorem InB_iff (x y : Int) : InB x y ↔ 0 ≤ x ∧ x < 64 ∧ 0 ≤ y ∧ y < 48 := by
  unfold InB
  rw [hW, hH]

theorem InB_of_not_bound {x y : Int}
    (h : ¬(x < 0 ∨ (CANVAS_WIDTH : Int) ≤ x ∨ y < 0 ∨ (CANVAS_HEIGHT : Int) ≤ y)) :
    InB x y := by
  rw [hW, hH] at h
  rw [InB_iff]
  omega

theorem not_bound_of_InB {x y : Int} (h : InB x y) :
    ¬(x < 0 ∨ (CANVAS_WIDTH : Int) ≤ x ∨ y < 0 ∨ (CANVAS_HEIGHT : Int) ≤ y) := by
  rw [InB_iff] at h
  rw [hW, hH]
  omega

theorem floodFillLoop_zero (target repl : String) (g : Grid)
    (stack : List (Int × Int)) :
    floodFillLoop target repl 0 g stack = Except.error () := rfl

theorem floodFillLoop_nil (target repl : String) (fuel : Nat) (g : Grid) :
    floodFillLoop target repl (fuel + 1) g [] = Except.ok g := rfl

theorem floodFillLoop_cons_out (target repl : String) (fuel : Nat) (g : Grid)
    (x y : Int) (rest : List (Int × Int))
    (h : x < 0 ∨ (CANVAS_WIDTH : Int) ≤ x ∨ y < 0 ∨ (CANVAS_HEIGHT : Int) ≤ y) :
    floodFillLoop target repl (fuel + 1) g ((x, y) :: rest) =
      floodFillLoop target repl fuel g rest := by
  simp only [floodFillLoop]
  rw [if_pos h]

theorem floodFillLoop_cons_hole (target repl : String) (fuel : Nat) (g : Grid)
    (x y : Int) (rest : List (Int × Int))
    (h : ¬(x < 0 ∨ (CANVAS_WIDTH : Int) ≤ x ∨ y < 0 ∨ (CANVAS_HEIGHT : Int) ≤ y))
    (hc : getCell g x y = none) :
    floodFillLoop target repl (fuel + 1) g ((x, y) :: rest) =
      Except.error () := by
  simp only [floodFillLoop]
  rw [if_neg h]
  simp only [hc]

theorem floodFillLoop_cons_skip (target repl : String) (fuel : Nat) (g : Grid)
    (x y : Int) (rest : List (Int × Int)) {c : String}
    (h : ¬(x < 0 ∨ (CANVAS_WIDTH : Int) ≤ x ∨ y < 0 ∨ (CANVAS_HEIGHT : Int) ≤ y))
    (hc : getCell g x y = some c) (hct : c ≠ target) :
    floodFillLoop target repl (fuel + 1) g ((x, y) :: rest) =
      floodFillLoop target repl fuel g rest := by
  simp only [floodFillLoop]
  rw [if_neg h]
  simp only [hc]
  rw [if_pos hct]

theorem floodFillLoop_cons_fill (target repl : String) (fuel : Nat) (g : Grid)
    (x y : Int) (rest : List (Int × Int))
    (h : ¬(x < 0 ∨ (CANVAS_WIDTH : Int) ≤ x ∨ y < 0 ∨ (CANVAS_HEIGHT : Int) ≤ y))
    (hc : getCell g x y = some target) :
    floodFillLoop target repl (fuel + 1) g ((x, y) :: rest) =
      floodFillLoop target repl fuel (setCell g x y (some repl))
        ((x, y - 1) :: (x, y + 1) :: (x - 1, y) :: (x + 1, y) :: rest) := by
  simp only [floodFillLoop]
  rw [if_neg h]
  simp only [hc]
  rw [if_neg (by simp : ¬target ≠ target)]

/-! ## Counting matching cells: the loop measure -/

/-- Number of cells of one row holding exactly the identifier `t`. -/
def rowCount (t : String) : List CellSlot → Nat
  | [] => 0
  | c :: cs => (if c = some t then 1 else 0) + rowCount t cs

/-- Number of cells of the grid holding exactly the identifier `t`. -/
def gridCount (t : String) : Grid → Nat
  | [] => 0
  | r :: rs => rowCount t r + gridCount t rs

theorem rowCount_le_length (t : String) (l : List CellSlot) :
    rowCount t l ≤ l.length := by
  induction l with
  | nil => simp [rowCount]
  | cons c cs ih =>
    simp only [rowCount, List.length_cons]
    by_cases h : c = some t <;> simp [h] <;> omega

theorem rowCount_set (t : String) (l : List CellSlot) (i : Nat) (v : CellSlot)
    (hi : i < l.length) (hold : l.getD i none = some t) (hv : v ≠ some t) :
    rowCount t (l.set i v) + 1 = rowCount t l := by
  induction l generalizing i with
  | nil => simp at hi
  | cons c cs ih =>
    cases i with
    | zero =>
      simp only [List.getD_cons_zero] at hold
      simp only [List.set_cons_zero, rowCount, if_neg hv, if_pos hold]
      omega
    | succ j =>
      simp only [List.getD_cons_succ] at hold
      simp only [List.set_cons_succ, rowCount]
      have := ih j (by simpa using hi) hold
      omega

theorem gridCount_set (t : String) (g : Grid) (i : Nat) (r : List CellSlot)
    (hi : i < g.length) :
    gridCount t (g.set i r) + rowCount t (g.getD i []) =
      gridCount t g + rowCount t r := by
  induction g generalizing i with
  | nil => simp at hi
  | cons row rows ih =>
    cases i with
    | zero => simp only [List.set_cons_zero, List.getD_cons_zero, gridCount]; omega
    | succ j =>
      simp only [List.set_cons_succ, List.getD_cons_succ, gridCount]
      have := ih j (by simpa using hi)
      omega

theorem gridCount_setCell (t : String) {g : Grid} {x y : Int}
    (hwf : WFGrid g) (hin : InB x y) (hc : getCell g x y = some t)
    {v : CellSlot} (hv : v ≠ some t) :
    gridCount t (setCell g x y v) + 1 = gridCount t g := by
  rw [InB_iff] at hin
  have hyl : y.toNat < g.length := by rw [hwf.1]; unfold CANVAS_HEIGHT; omega
  have hxl : x.toNat < (g.getD y.toNat []).length := by
    rw [row_length hwf hyl]; unfold CANVAS_WIDTH; omega
  have hold : (g.getD y.toNat []).getD x.toNat none = some t := by
    unfold getCell at hc
    rw [if_pos ⟨by omega, by omega⟩] at hc
    exact hc
  have h1 := rowCount_set t (g.getD y.toNat []) x.toNat v hxl hold hv
  have h2 := gridCount_set t g y.toNat ((g.getD y.toNat []).set x.toNat v) hyl
  unfold setCell
  omega

theorem gridCount_le (t : String) {g : Grid} (hwf : WFGrid g) :
    gridCount t g ≤ CANVAS_WIDTH * CANVAS_HEIGHT := by
  have haux : ∀ (h : Grid), (∀ r ∈ h, r.length = CANVAS_WIDTH) →
      gridCount t h ≤ h.length * CANVAS_WIDTH := by
    intro h
    induction h with
    | nil => intro _; simp [gridCount]
    | cons r rs ih =>
      intro hlen
      have h1 : rowCount t r ≤ CANVAS_WIDTH := by
        have := rowCount_le_length t r
        rw [hlen r (by simp)] at this
        exact this
      have h2 := ih (fun r hr => hlen r (by simp [hr]))
      simp only [gridCount, List.length_cons]
      calc rowCount t r + gridCount t rs ≤ CANVAS_WIDTH + rs.length * CANVAS_WIDTH := by
            omega
        _ = (rs.length + 1) * CANVAS_WIDTH := by ring
  have := haux g hwf.2.1
  rw [hwf.1] at this
  calc gridCount t g ≤ CANVAS_HEIGHT * CANVAS_WIDTH := this
    _ = CANVAS_WIDTH * CANVAS_HEIGHT := by ring

/-! ## Termination of the loop -/

theorem floodFillLoop_total (target repl : String) (hne : target ≠ repl) :
    ∀ (fuel : Nat) (g : Grid) (stack : List (Int × Int)), WFGrid g →
      4 * gridCount target g + stack.length < fuel →
      ∃ g', floodFillLoop target repl fuel g stack = Except.ok g' ∧
        WFGrid g' := by
  intro fuel
  induction fuel with
  | zero => intro g stack _ hm; omega
  | succ n ih =>
    intro g stack hwf hm
    match stack with
    | [] => exact ⟨g, floodFillLoop_nil target repl n g, hwf⟩
    | (x, y) :: rest =>
      by_cases hb : x < 0 ∨ (CANVAS_WIDTH : Int) ≤ x ∨ y < 0 ∨
          (CANVAS_HEIGHT : Int) ≤ y
      · rw [floodFillLoop_cons_out target repl n g x y rest hb]
        exact ih g rest hwf (by simp at hm ⊢; omega)
      · have hin : InB x y := InB_of_not_bound hb
        obtain ⟨c, hc⟩ := getCell_isSome hwf hin
        by_cases hct : c = target
        · rw [hct] at hc
          rw [floodFillLoop_cons_fill target repl n g x y rest hb hc]
          have hwf2 := WFGrid_setCell hwf hin repl
          have hcount := gridCount_setCell target hwf hin hc
            (v := some repl) (by simpa using Ne.symm hne)
          refine ih _ _ hwf2 ?_
          simp only [List.length_cons] at hm ⊢
          omega
        · rw [floodFillLoop_cons_skip target repl n g x y rest hb hc hct]
          exact ih g rest hwf (by simp at hm ⊢; omega)

theorem floodFillLoop_mono (target repl : String) :
    ∀ (f1 f2 : Nat) (g : Grid) (stack : List (Int × Int)) (g' : Grid),
      f1 ≤ f2 → floodFillLoop target repl f1 g stack = Except.ok g' →
      floodFillLoop target repl f2 g stack = Except.ok g' := by
  intro f1
  induction f1 with
  | zero =>
    intro f2 g stack g' _ h
    rw [floodFillLoop_zero] at h
    exact absurd h (by simp)
  | succ n ih =>
    intro f2 g stack g' hle h
    match f2, hle with
    | m + 1, hle =>
      have hnm : n ≤ m := by omega
      match stack with
      | [] =>
        rw [floodFillLoop_nil] at h ⊢
        exact h
      | (x, y) :: rest =>
        by_cases hb : x < 0 ∨ (CANVAS_WIDTH : Int) ≤ x ∨ y < 0 ∨
            (CANVAS_HEIGHT : Int) ≤ y
        · rw [floodFillLoop_cons_out target repl n g x y rest hb] at h
          rw [floodFillLoop_cons_out target repl m g x y rest hb]
          exact ih m g rest g' hnm h
        · cases hc : getCell g x y with
          | none =>
            rw [floodFillLoop_cons_hole target repl n g x y rest hb hc] at h
            exact absurd h (by simp)
          | some c =>
            by_cases hct : c = target
            · rw [hct] at hc
              rw [floodFillLoop_cons_fill target repl n g x y rest hb hc] at h
              rw [floodFillLoop_cons_fill target repl m g x y rest hb hc]
              exact ih m _ _ g' hnm h
            · rw [floodFillLoop_cons_skip target repl n g x y rest hb hc hct] at h
              rw [floodFillLoop_cons_skip target repl m g x y rest hb hc hct]
              exact ih m g rest g' hnm h

theorem floodFill_total (g : Grid) (sx sy : Int) (repl : String)
    (hwf : WFGrid g) (hin : InB sx sy) :
    ∃ g', floodFill g sx sy repl = Except.ok g' := by
  obtain ⟨target, htgt⟩ := getCell_isSome hwf hin
  unfold floodFill floodFillWith
  simp only [htgt]
  by_cases hre : target = repl
  · rw [if_pos hre]
    exact ⟨g, rfl⟩
  · rw [if_neg hre]
    have hcount := gridCount_le target hwf
    obtain ⟨g', hg', _⟩ := floodFillLoop_total target repl hre floodFillFuel g
      [(sx, sy)] hwf (by
        unfold floodFillFuel CANVAS_WIDTH CANVAS_HEIGHT at *
        simp only [List.length_cons, List.length_nil]
        omega)
    exact ⟨g', hg'⟩

/-! ## Claim C7: flood fill terminates -/

/-- Claim C7: for every well-formed grid, in-bounds start cell and
replacement identifier, the work-stack loop empties after finitely many
iterations: there is a result grid that the loop reaches within the
canonical iteration bound `floodFillFuel = 4*64*48 + 2`, and giving the loop
any larger iteration budget changes nothing. -/
theorem floodFill_terminates (g : Grid) (sx sy : Int) (repl : String)
    (hwf : WFGrid g) (hin : InB sx sy) :
    ∃ g', ∀ fuel, floodFillFuel ≤ fuel →
      floodFillWith fuel g sx sy repl = Except.ok g' := by
  obtain ⟨g', hg'⟩ := floodFill_total g sx sy repl hwf hin
  refine ⟨g', fun fuel hfuel => ?_⟩
  unfold floodFill floodFillWith at hg'
  unfold floodFillWith
  obtain ⟨target, htgt⟩ := getCell_isSome hwf hin
  simp only [htgt] at hg' ⊢
  by_cases hre : target = repl
  · rw [if_pos hre] at hg' ⊢
    exact hg'
  · rw [if_neg hre] at hg' ⊢
    exact floodFillLoop_mono target repl floodFillFuel fuel g [(sx, sy)] g'
      hfuel hg'

/-- Witness for claim C7 on the initial grid. -/
theorem floodFill_terminates_witness :
    ∃ g', ∀ fuel, floodFillFuel ≤ fuel →
      floodFillWith fuel initialGrid 0 0 "water" = Except.ok g' :=
  floodFill_terminates initialGrid 0 0 "water" (by decide) (by decide)

/-! ## Claim C10: flood fill writes only the replacement identifier -/

theorem floodFillLoop_cells (target repl : String) :
    ∀ (fuel : Nat) (g : Grid) (stack : List (Int × Int)) (g' : Grid),
      floodFillLoop target repl fuel g stack = Except.ok g' →
      ∀ a b : Int, getCell g' a b = getCell g a b ∨
        getCell g' a b = some repl := by
  intro fuel
  induction fuel with
  | zero =>
    intro g stack g' h
    rw [floodFillLoop_zero] at h
    exact absurd h (by simp)
  | succ n ih =>
    intro g stack g' h a b
    match stack with
    | [] =>
      rw [floodFillLoop_nil] at h
      cases h
      exact Or.inl rfl
    | (x, y) :: rest =>
      by_cases hb : x < 0 ∨ (CANVAS_WIDTH : Int) ≤ x ∨ y < 0 ∨
          (CANVAS_HEIGHT : Int) ≤ y
      · rw [floodFillLoop_cons_out target repl n g x y rest hb] at h
        exact ih g rest g' h a b
      · cases hc : getCell g x y with
        | none =>
          rw [floodFillLoop_cons_hole target repl n g x y rest hb hc] at h
          exact absurd h (by simp)
        | some c =>
          by_cases hct : c = target
          · rw [hct] at hc
            rw [floodFillLoop_cons_fill target repl n g x y rest hb hc] at h
            rcases ih _ _ g' h a b with h1 | h1
            · rcases getCell_setCell_or g x y a b (some repl) with h2 | h2
              · exact Or.inl (h1.trans h2)
              · exact Or.inr (h1.trans h2)
            · exact Or.inr h1
          · rw [floodFillLoop_cons_skip target repl n g x y rest hb hc hct] at h
            exact ih g rest g' h a b

/-- Claim C10: for every well-formed grid, in-bounds start cell and
replacement identifier, every cell of the flood-fill result holds either its
original identifier or the replacement identifier — no other identifier is
introduced. -/
theorem floodFill_writes_only_repl (g : Grid) (sx sy : Int) (repl : String)
    (hwf : WFGrid g) (hin : InB sx sy) :
    ∃ g', floodFill g sx sy repl = Except.ok g' ∧
      ∀ a b : Int, getCell g' a b = getCell g a b ∨
        getCell g' a b = some repl := by
  obtain ⟨g', hg'⟩ := floodFill_total g sx sy repl hwf hin
  refine ⟨g', hg', ?_⟩
  obtain ⟨target, htgt⟩ := getCell_isSome hwf hin
  unfold floodFill floodFillWith at hg'
  simp only [htgt] at hg'
  by_cases hre : target = repl
  · rw [if_pos hre] at hg'
    cases hg'
    exact fun a b => Or.inl rfl
  · rw [if_neg hre] at hg'
    exact floodFillLoop_cells target repl floodFillFuel g [(sx, sy)] g' hg'

/-- Witness for claim C10 on the initial grid. -/
theorem floodFill_writes_only_repl_witness :
    ∃ g', floodFill initialGrid 0 0 "water" = Except.ok g' ∧
      ∀ a b : Int, getCell g' a b = getCell initialGrid a b ∨
        getCell g' a b = some "water" :=
  floodFill_writes_only_repl initialGrid 0 0 "water" (by decide) (by decide)

/-! ## Claim C5: flood fill is idempotent -/

theorem floodFillLoop_repl_persists (target repl : String) :
    ∀ (fuel : Nat) (g : Grid) (stack : List (Int × Int)) (g' : Grid)
      (a b : Int), floodFillLoop target repl fuel g stack = Except.ok g' →
      getCell g a b = some repl → getCell g' a b = some repl := by
  intro fuel
  induction fuel with
  | zero =>
    intro g stack g' a b h
    rw [floodFillLoop_zero] at h
    exact absurd h (by simp)
  | succ n ih =>
    intro g stack g' a b h hrepl
    match stack with
    | [] =>
      rw [floodFillLoop_nil] at h
      cases h
      exact hrepl
    | (x, y) :: rest =>
      by_cases hb : x < 0 ∨ (CANVAS_WIDTH : Int) ≤ x ∨ y < 0 ∨
          (CANVAS_HEIGHT : Int) ≤ y
      · rw [floodFillLoop_cons_out target repl n g x y rest hb] at h
        exact ih g rest g' a b h hrepl
      · cases hc : getCell g x y with
        | none =>
          rw [floodFillLoop_cons_hole target repl n g x y rest hb hc] at h
          exact absurd h (by simp)
        | some c =>
          by_cases hct : c = target
          · rw [hct] at hc
            rw [floodFillLoop_cons_fill target repl n g x y rest hb hc] at h
            refine ih _ _ g' a b h ?_
            rcases getCell_setCell_or g x y a b (some repl) with h2 | h2
            · rw [h2]; exact hrepl
            · exact h2
          · rw [floodFillLoop_cons_skip target repl n g x y rest hb hc hct] at h
            exact ih g rest g' a b h hrepl

/-- Claim C5: flood fill is idempotent — for every well-formed grid,
in-bounds start cell and replacement identifier, the first run succeeds with
some result grid, and running flood fill again on that result (same start,
same replacement) returns it unchanged. -/
theorem floodFill_idempotent (g : Grid) (sx sy : Int) (repl : String)
    (hwf : WFGrid g) (hin : InB sx sy) :
    ∃ g', floodFill g sx sy repl = Except.ok g' ∧
      floodFill g' sx sy repl = Except.ok g' := by
  obtain ⟨target, htgt⟩ := getCell_isSome hwf hin
  by_cases hre : target = repl
  · have hfirst : floodFill g sx sy repl = Except.ok g := by
      unfold floodFill floodFillWith
      simp only [htgt]
      rw [if_pos hre]
    exact ⟨g, hfirst, hfirst⟩
  · obtain ⟨g', hg'⟩ := floodFill_total g sx sy repl hwf hin
    refine ⟨g', hg', ?_⟩
    have hloop : floodFillLoop target repl floodFillFuel g [(sx, sy)] =
        Except.ok g' := by
      unfold floodFill floodFillWith at hg'
      simp only [htgt] at hg'
      rwa [if_neg hre] at hg'
    have hfuel : floodFillFuel = (4 * (CANVAS_WIDTH * CANVAS_HEIGHT) + 1) + 1 :=
      rfl
    rw [hfuel, floodFillLoop_cons_fill target repl _ g sx sy []
      (not_bound_of_InB hin) htgt] at hloop
    have hstart : getCell g' sx sy = some repl := by
      refine floodFillLoop_repl_persists target repl _ _ _ g' sx sy hloop ?_
      exact getCell_setCell_self hwf hin (some repl)
    unfold floodFill floodFillWith
    simp [hstart]

/-- Witness for claim C5 on the initial grid. -/
theorem floodFill_idempotent_witness :
    ∃ g', floodFill initialGrid 3 4 "stone" = Except.ok g' ∧
      floodFill g' 3 4 "stone" = Except.ok g' :=
  floodFill_idempotent initialGrid 3 4 "stone" (by decide) (by decide)

/-! ## Claim C3: region isolation -/

/-- 4-adjacency of grid coordinates: exactly the four neighbors pushed by
the flood-fill loop. -/
def Adj : Int × Int → Int × Int → Prop
  | (px, py), (qx, qy) =>
    (qx = px + 1 ∧ qy = py) ∨ (qx = px - 1 ∧ qy = py) ∨
      (qx = px ∧ qy = py + 1) ∨ (qx = px ∧ qy = py - 1)

/-- `Reach g t s p`: there is a 4-connected path from `s` to `p` running
through in-bounds cells that all hold identifier `t` in grid `g`
(both endpoints included). -/
inductive Reach (g : Grid) (t : String) (s : Int × Int) : Int × Int → Prop
  | refl (hin : InB s.1 s.2) (hc : getCell g s.1 s.2 = some t) : Reach g t s s
  | step {q r : Int × Int} (hq : Reach g t s q) (hadj : Adj q r)
      (hin : InB r.1 r.2) (hc : getCell g r.1 r.2 = some t) : Reach g t s r

theorem Reach_InB {g : Grid} {t : String} {s p : Int × Int}
    (h : Reach g t s p) : InB p.1 p.2 := by
  induction h with
  | refl hin _ => exact hin
  | step _ _ hin _ _ => exact hin

theorem floodFillLoop_isolation (g0 : Grid) (target repl : String)
    (sx sy : Int) (hne : target ≠ repl)
    (hs : getCell g0 sx sy = some target) :
    ∀ (fuel : Nat) (g : Grid) (stack : List (Int × Int)) (g' : Grid),
      WFGrid g →
      (∀ a b : Int, InB a b → getCell g a b ≠ getCell g0 a b →
        Reach g0 target (sx, sy) (a, b) ∧ getCell g a b = some repl) →
      (∀ p ∈ stack, p = (sx, sy) ∨
        ∃ q, Reach g0 target (sx, sy) q ∧ Adj q p) →
      floodFillLoop target repl fuel g stack = Except.ok g' →
      ∀ a b : Int, InB a b → getCell g' a b ≠ getCell g0 a b →
        Reach g0 target (sx, sy) (a, b) ∧ getCell g' a b = some repl := by
  intro fuel
  induction fuel with
  | zero =>
    intro g stack g' _ _ _ h
    rw [floodFillLoop_zero] at h
    exact absurd h (by simp)
  | succ n ih =>
    intro g stack g' hwf hA hB h
    match stack with
    | [] =>
      rw [floodFillLoop_nil] at h
      cases h
      exact hA
    | (x, y) :: rest =>
      by_cases hb : x < 0 ∨ (CANVAS_WIDTH : Int) ≤ x ∨ y < 0 ∨
          (CANVAS_HEIGHT : Int) ≤ y
      · rw [floodFillLoop_cons_out target repl n g x y rest hb] at h
        exact ih g rest g' hwf hA (fun p hp => hB p (by simp [hp])) h
      · have hin : InB x y := InB_of_not_bound hb
        cases hc : getCell g x y with
        | none =>
          rw [floodFillLoop_cons_hole target repl n g x y rest hb hc] at h
          exact absurd h (by simp)
        | some c =>
          by_cases hct : c = target
          · rw [hct] at hc
            rw [floodFillLoop_cons_fill target repl n g x y rest hb hc] at h
            have hreach : Reach g0 target (sx, sy) (x, y) := by
              rcases hB (x, y) (by simp) with hps | ⟨q, hq, hadj⟩
              · have e1 : x = sx := congrArg Prod.fst hps
                have e2 : y = sy := congrArg Prod.snd hps
                subst e1
                subst e2
                exact Reach.refl hin hs
              · have hg0 : getCell g0 x y = some target := by
                  by_cases heq : getCell g x y = getCell g0 x y
                  · rw [← heq]; exact hc
                  · have h2 := (hA x y hin heq).2
                    rw [h2] at hc
                    exact absurd (Option.some.inj hc).symm hne
                exact Reach.step hq hadj hin hg0
            have hA2 : ∀ a b : Int, InB a b →
                getCell (setCell g x y (some repl)) a b ≠ getCell g0 a b →
                Reach g0 target (sx, sy) (a, b) ∧
                  getCell (setCell g x y (some repl)) a b = some repl := by
              intro a b hab hne2
              by_cases hpq : (a, b) = (x, y)
              · have e1 : a = x := congrArg Prod.fst hpq
                have e2 : b = y := congrArg Prod.snd hpq
                subst e1
                subst e2
                exact ⟨hreach, getCell_setCell_self hwf hin _⟩
              · rw [getCell_setCell_ne hin hab hpq] at hne2 ⊢
                exact hA a b hab hne2
            have hB2 : ∀ p ∈ (x, y - 1) :: (x, y + 1) :: (x - 1, y) ::
                (x + 1, y) :: rest, p = (sx, sy) ∨
                ∃ q, Reach g0 target (sx, sy) q ∧ Adj q p := by
              intro p hp
              simp only [List.mem_cons] at hp
              rcases hp with h1 | h1 | h1 | h1 | h1
              · exact Or.inr ⟨(x, y), hreach, by
                  rw [h1]; exact Or.inr (Or.inr (Or.inr ⟨rfl, rfl⟩))⟩
              · exact Or.inr ⟨(x, y), hreach, by
                  rw [h1]; exact Or.inr (Or.inr (Or.inl ⟨rfl, rfl⟩))⟩
              · exact Or.inr ⟨(x, y), hreach, by
                  rw [h1]; exact Or.inr (Or.inl ⟨rfl, rfl⟩)⟩
              · exact Or.inr ⟨(x, y), hreach, by
                  rw [h1]; exact Or.inl ⟨rfl, rfl⟩⟩
              · exact hB p (by simp [h1])
            exact ih _ _ g' (WFGrid_setCell hwf hin repl) hA2 hB2 h
          · rw [floodFillLoop_cons_skip target repl n g x y rest hb hc hct] at h
            exact ih g rest g' hwf hA (fun p hp => hB p (by simp [hp])) h

/-- Claim C3: region isolation — flood fill leaves unchanged every in-bounds
cell that is not connected to the start cell by a 4-connected path of cells
holding the original identifier of the start cell. -/
theorem floodFill_region_isolation (g : Grid) (sx sy : Int)
    (target repl : String) (hwf : WFGrid g) (hin : InB sx sy)
    (htgt : getCell g sx sy = some target) :
    ∃ g', floodFill g sx sy repl = Except.ok g' ∧
      ∀ a b : Int, InB a b → ¬Reach g target (sx, sy) (a, b) →
        getCell g' a b = getCell g a b := by
  obtain ⟨g', hg'⟩ := floodFill_total g sx sy repl hwf hin
  refine ⟨g', hg', ?_⟩
  by_cases hre : target = repl
  · have heq : floodFill g sx sy repl = Except.ok g := by
      unfold floodFill floodFillWith
      simp only [htgt]
      rw [if_pos hre]
    rw [heq] at hg'
    cases hg'
    intro a b _ _
    rfl
  · have hloop : floodFillLoop target repl floodFillFuel g [(sx, sy)] =
        Except.ok g' := by
      unfold floodFill floodFillWith at hg'
      simp only [htgt] at hg'
      rwa [if_neg hre] at hg'
    have hiso := floodFillLoop_isolation g target repl sx sy hre htgt
      floodFillFuel g [(sx, sy)] g' hwf
      (fun a b _ hcon => absurd rfl hcon)
      (fun p hp => Or.inl (by simpa using hp)) hloop
    intro a b hab hnr
    by_contra hcon
    exact hnr (hiso a b hab hcon).1

/-- Witness for claim C3 on the initial grid. -/
theorem floodFill_region_isolation_witness :
    ∃ g', floodFill initialGrid 0 0 "water" = Except.ok g' ∧
      ∀ a b : Int, InB a b → ¬Reach initialGrid "air" (0, 0) (a, b) →
        getCell g' a b = getCell initialGrid a b :=
  floodFill_region_isolation initialGrid 0 0 "air" "water" (by decide)
    (by decide) (by rfl)

/-! ## Claim C4: fill completeness on a uniform grid -/

/-- Frontier invariant of the loop: every already-filled cell has each of
its in-bounds neighbors either still on the stack or not matching the
target; additionally the start cell is on the stack, already filled, or not
matching.  At loop exit the stack is empty, so filled cells have no
matching neighbors and the start cell is filled or non-matching. -/
theorem floodFillLoop_frontier (target repl : String) (sx sy : Int)
    (hne : target ≠ repl) (hsin : InB sx sy) :
    ∀ (fuel : Nat) (g : Grid) (stack : List (Int × Int)) (g' : Grid),
      WFGrid g →
      (∀ a b : Int, InB a b → getCell g a b = some repl →
        ∀ qx qy : Int, Adj (a, b) (qx, qy) → InB qx qy →
          (qx, qy) ∈ stack ∨ getCell g qx qy ≠ some target) →
      ((sx, sy) ∈ stack ∨ getCell g sx sy = some repl ∨
        getCell g sx sy ≠ some target) →
      floodFillLoop target repl fuel g stack = Except.ok g' →
      (∀ a b : Int, InB a b → getCell g' a b = some repl →
        ∀ qx qy : Int, Adj (a, b) (qx, qy) → InB qx qy →
          getCell g' qx qy ≠ some target) ∧
        (getCell g' sx sy = some repl ∨ getCell g' sx sy ≠ some target) := by
  intro fuel
  induction fuel with
  | zero =>
    intro g stack g' _ _ _ h
    rw [floodFillLoop_zero] at h
    exact absurd h (by simp)
  | succ n ih =>
    intro g stack g' hwf hD hE h
    match stack with
    | [] =>
      rw [floodFillLoop_nil] at h
      cases h
      constructor
      · intro a b hab hrep qx qy hadj hq
        rcases hD a b hab hrep qx qy hadj hq with hmem | hne2
        · simp at hmem
        · exact hne2
      · rcases hE with hmem | hE'
        · simp at hmem
        · exact hE'
    | (x, y) :: rest =>
      by_cases hb : x < 0 ∨ (CANVAS_WIDTH : Int) ≤ x ∨ y < 0 ∨
          (CANVAS_HEIGHT : Int) ≤ y
      · rw [floodFillLoop_cons_out target repl n g x y rest hb] at h
        have hnin : ¬InB x y := fun hi => (not_bound_of_InB hi) hb
        refine ih g rest g' hwf ?_ ?_ h
        · intro a b hab hrep qx qy hadj hq
          rcases hD a b hab hrep qx qy hadj hq with hmem | hne2
          · rcases List.mem_cons.mp hmem with h1 | h1
            · exfalso
              have e1 : qx = x := congrArg Prod.fst h1
              have e2 : qy = y := congrArg Prod.snd h1
              subst e1
              subst e2
              exact hnin hq
            · exact Or.inl h1
          · exact Or.inr hne2
        · rcases hE with hmem | hE'
          · rcases List.mem_cons.mp hmem with h1 | h1
            · exfalso
              have e1 : sx = x := congrArg Prod.fst h1
              have e2 : sy = y := congrArg Prod.snd h1
              subst e1
              subst e2
              exact hnin hsin
            · exact Or.inl h1
          · exact Or.inr hE'
      · have hin : InB x y := InB_of_not_bound hb
        cases hc : getCell g x y with
        | none =>
          rw [floodFillLoop_cons_hole target repl n g x y rest hb hc] at h
          exact absurd h (by simp)
        | some c =>
          by_cases hct : c = target
          · rw [hct] at hc
            rw [floodFillLoop_cons_fill target repl n g x y rest hb hc] at h
            have hrne : (some repl : CellSlot) ≠ some target :=
              fun hcon => hne (Option.some.inj hcon).symm
            refine ih _ _ g' (WFGrid_setCell hwf hin repl) ?_ ?_ h
            · intro a b hab hrep qx qy hadj hq
              by_cases hpq : (a, b) = (x, y)
              · have e1 : a = x := congrArg Prod.fst hpq
                have e2 : b = y := congrArg Prod.snd hpq
                subst e1
                subst e2
                left
                rcases hadj with ⟨h1, h2⟩ | ⟨h1, h2⟩ | ⟨h1, h2⟩ | ⟨h1, h2⟩ <;>
                  subst h1 <;> subst h2 <;> simp
              · rw [getCell_setCell_ne hin hab hpq] at hrep
                rcases hD a b hab hrep qx qy hadj hq with hmem | hne2
                · rcases List.mem_cons.mp hmem with h1 | h1
                  · right
                    have e1 : qx = x := congrArg Prod.fst h1
                    have e2 : qy = y := congrArg Prod.snd h1
                    subst e1
                    subst e2
                    rw [getCell_setCell_self hwf hin]
                    exact hrne
                  · left
                    exact List.mem_cons_of_mem _ (List.mem_cons_of_mem _
                      (List.mem_cons_of_mem _ (List.mem_cons_of_mem _ h1)))
                · right
                  rcases getCell_setCell_or g x y qx qy (some repl) with h2 | h2
                  · rw [h2]; exact hne2
                  · rw [h2]; exact hrne
            · rcases hE with hmem | hrep | hne2
              · rcases List.mem_cons.mp hmem with h1 | h1
                · right; left
                  have e1 : sx = x := congrArg Prod.fst h1
                  have e2 : sy = y := congrArg Prod.snd h1
                  subst e1
                  subst e2
                  exact getCell_setCell_self hwf hin _
                · left
                  exact List.mem_cons_of_mem _ (List.mem_cons_of_mem _
                    (List.mem_cons_of_mem _ (List.mem_cons_of_mem _ h1)))
              · right; left
                rcases getCell_setCell_or g x y sx sy (some repl) with h2 | h2
                · rw [h2]; exact hrep
                · exact h2
              · rcases getCell_setCell_or g x y sx sy (some repl) with h2 | h2
                · right; right; rw [h2]; exact hne2
                · right; left; exact h2
          · rw [floodFillLoop_cons_skip target repl n g x y rest hb hc hct] at h
            have hcne : getCell g x y ≠ some target := by
              rw [hc]
              exact fun hcon => hct (Option.some.inj hcon)
            refine ih g rest g' hwf ?_ ?_ h
            · intro a b hab hrep qx qy hadj hq
              rcases hD a b hab hrep qx qy hadj hq with hmem | hne2
              · rcases List.mem_cons.mp hmem with h1 | h1
                · right
                  have e1 : qx = x := congrArg Prod.fst h1
                  have e2 : qy = y := congrArg Prod.snd h1
                  subst e1
                  subst e2
                  exact hcne
                · exact Or.inl h1
              · exact Or.inr hne2
            · rcases hE with hmem | hE'
              · rcases List.mem_cons.mp hmem with h1 | h1
                · right; right
                  have e1 : sx = x := congrArg Prod.fst h1
                  have e2 : sy = y := congrArg Prod.snd h1
                  subst e1
                  subst e2
                  exact hcne
                · exact Or.inl h1
              · exact Or.inr hE'

/-- In a result grid whose filled cells have no matching neighbors and
whose start cell is filled, every cell reachable from the start (through
cells matching the target in the original grid) is filled. -/
theorem reach_filled (g g' : Grid) (target repl : String) (sx sy : Int)
    (hD : ∀ a b : Int, InB a b → getCell g' a b = some repl →
      ∀ qx qy : Int, Adj (a, b) (qx, qy) → InB qx qy →
        getCell g' qx qy ≠ some target)
    (hs : getCell g' sx sy = some repl)
    (hOR : ∀ a b : Int, getCell g' a b = getCell g a b ∨
      getCell g' a b = some repl) :
    ∀ p : Int × Int, Reach g target (sx, sy) p →
      getCell g' p.1 p.2 = some repl := by
  intro p hr
  induction hr with
  | refl hin hc => exact hs
  | @step q r hq hadj hin hc ih =>
    have hnt : getCell g' r.1 r.2 ≠ some target := by
      have hqin := Reach_InB hq
      refine hD q.1 q.2 hqin ih r.1 r.2 ?_ hin
      exact hadj
    rcases hOR r.1 r.2 with h1 | h1
    · exfalso
      exact hnt (h1.trans hc)
    · exact h1

theorem getD_replicate {α : Type} (n i : Nat) (x d : α) (h : i < n) :
    (List.replicate n x).getD i d = x := by
  induction n generalizing i with
  | zero => omega
  | succ m ih =>
    cases i with
    | zero => simp [List.replicate]
    | succ j =>
      simp only [List.replicate, List.getD_cons_succ]
      exact ih j (by omega)

theorem getCell_initialGrid (a b : Int) (hab : InB a b) :
    getCell initialGrid a b = some "air" := by
  rw [InB_iff] at hab
  unfold getCell initialGrid
  rw [if_pos ⟨by omega, by omega⟩]
  rw [getD_replicate CANVAS_HEIGHT b.toNat _ [] (by
    unfold CANVAS_HEIGHT; omega)]
  rw [getD_replicate CANVAS_WIDTH a.toNat _ none (by
    unfold CANVAS_WIDTH; omega)]

/-- On a grid whose in-bounds cells all match the target, every in-bounds
cell is reachable from any in-bounds start cell (march along the row, then
along the column). -/
theorem uniform_reach (g : Grid) (target : String) (sx sy : Int)
    (hin : InB sx sy)
    (huni : ∀ a b : Int, InB a b → getCell g a b = some target) :
    ∀ a b : Int, InB a b → Reach g target (sx, sy) (a, b) := by
  have start : Reach g target (sx, sy) (sx, sy) :=
    Reach.refl hin (huni sx sy hin)
  have marchX : ∀ (n : Nat) (a : Int), (a - sx).natAbs = n → InB a sy →
      Reach g target (sx, sy) (a, sy) := by
    intro n
    induction n with
    | zero =>
      intro a h ha
      have e : a = sx := by omega
      subst e
      exact start
    | succ m ih =>
      intro a h ha
      rcases lt_trichotomy a sx with hlt | heq | hgt
      · have h1 : InB (a + 1) sy := by
          rw [InB_iff] at *
          omega
        refine Reach.step (ih (a + 1) (by omega) h1) ?_ ha (huni a sy ha)
        exact Or.inr (Or.inl ⟨by omega, rfl⟩)
      · exfalso
        subst heq
        omega
      · have h1 : InB (a - 1) sy := by
          rw [InB_iff] at *
          omega
        refine Reach.step (ih (a - 1) (by omega) h1) ?_ ha (huni a sy ha)
        exact Or.inl ⟨by omega, rfl⟩
  have marchY : ∀ (n : Nat) (a b : Int), (b - sy).natAbs = n → InB a sy →
      InB a b → Reach g target (sx, sy) (a, b) := by
    intro n
    induction n with
    | zero =>
      intro a b h ha hb
      have e : b = sy := by omega
      subst e
      exact marchX (a - sx).natAbs a rfl ha
    | succ m ih =>
      intro a b h ha hb
      rcases lt_trichotomy b sy with hlt | heq | hgt
      · have h1 : InB a (b + 1) := by
          rw [InB_iff] at *
          omega
        refine Reach.step (ih a (b + 1) (by omega) ha h1) ?_ hb (huni a b hb)
        exact Or.inr (Or.inr (Or.inr ⟨rfl, by omega⟩))
      · exfalso
        subst heq
        omega
      · have h1 : InB a (b - 1) := by
          rw [InB_iff] at *
          omega
        refine Reach.step (ih a (b - 1) (by omega) ha h1) ?_ hb (huni a b hb)
        exact Or.inr (Or.inr (Or.inl ⟨rfl, by omega⟩))
  intro a b hab
  have ha : InB a sy := by
    rw [InB_iff] at *
    omega
  exact marchY (b - sy).natAbs a b rfl ha hab

/-- Claim C4: on a grid whose in-bounds cells all hold identifier `A`,
flood-filling with replacement `B` from any in-bounds start cell yields a
grid whose 64 by 48 in-bounds cells all hold `B`. -/
theorem floodFill_uniform_complete (g : Grid) (sx sy : Int) (A B : String)
    (hwf : WFGrid g) (hin : InB sx sy)
    (huni : ∀ a b : Int, InB a b → getCell g a b = some A) :
    ∃ g', floodFill g sx sy B = Except.ok g' ∧
      ∀ a b : Int, InB a b → getCell g' a b = some B := by
  have htgt : getCell g sx sy = some A := huni sx sy hin
  by_cases hAB : A = B
  · subst hAB
    refine ⟨g, ?_, fun a b hab => huni a b hab⟩
    unfold floodFill floodFillWith
    simp [htgt]
  · obtain ⟨g', hg'⟩ := floodFill_total g sx sy B hwf hin
    refine ⟨g', hg', ?_⟩
    have hloop : floodFillLoop A B floodFillFuel g [(sx, sy)] =
        Except.ok g' := by
      unfold floodFill floodFillWith at hg'
      simp only [htgt] at hg'
      rwa [if_neg hAB] at hg'
    have hOR := floodFillLoop_cells A B floodFillFuel g [(sx, sy)] g' hloop
    obtain ⟨hD, hE⟩ := floodFillLoop_frontier A B sx sy hAB hin floodFillFuel
      g [(sx, sy)] g' hwf
      (fun a b hab hrep _ _ _ _ =>
        absurd (Option.some.inj ((huni a b hab).symm.trans hrep)) hAB)
      (Or.inl (by simp)) hloop
    have hs : getCell g' sx sy = some B := by
      rcases hE with h1 | h1
      · exact h1
      · rcases hOR sx sy with h2 | h2
        · exact absurd (h2.trans htgt) h1
        · exact h2
    intro a b hab
    exact reach_filled g g' A B sx sy hD hs hOR (a, b)
      (uniform_reach g A sx sy hin huni a b hab)

/-- Witness for claim C4: filling the all-air grid with water from (0,0)
makes every in-bounds cell water. -/
theorem floodFill_uniform_complete_witness :
    ∃ g', floodFill initialGrid 0 0 "water" = Except.ok g' ∧
      ∀ a b : Int, InB a b → getCell g' a b = some "water" :=
  floodFill_uniform_complete initialGrid 0 0 "air" "water" (by decide)
    (by decide) getCell_initialGrid

end MCEditor
